import Mathlib

/-
Shallow embedding of `src/delevent.h` (namespace `del`): a type-erased
multicast delegate `event<R(Args...)>`.

Modelling choices, traced to the source:

* `base_callable` is the abstract record; its two concrete variants
  `generic_callable_handle<T>` and `object_callable_handle<T>` are the two
  constructors.  The template argument `T` of the concrete handle class is
  modelled by a `Nat` type tag `ty`: `dynamic_cast` in `compare` succeeds
  exactly when the other record is the same concrete class with the same
  template argument, which the embedding renders as a constructor match plus
  a tag equality test.
* The stored callable value `m_Func : T` is modelled by a value of an
  abstract type `F`; the callable type's own `operator==` is an arbitrary
  boolean relation `eqF` (the source imposes nothing on it beyond being
  callable).  The object pointer `m_Obj : T*` and the member-function
  pointer `m_MemFunc` are modelled by `Nat` addresses/identifiers, compared
  with primitive equality, exactly as C++ compares raw and member pointers.
* The registry `std::vector<std::unique_ptr<base_callable>>` is a
  `List (Option (base_callable F))`: a `unique_ptr` is nullable, so `none`
  models a null entry.  The public operations only ever store non-null
  entries (`new` never yields null); that this is an invariant is one of the
  claims, not an assumption of the model.
* `detach_impl` erases the iterator returned by `std::find_if` without
  checking it against `end()`; `vector::erase(end())` is undefined
  behavior, modelled as `none` (no defined result state).
* Invocation is observed through a call trace: invoking a record with
  argument `a` emits the event `(record, a)`.  `operator()` returns `void`
  and ignores each record's return value, so the trace carries no return
  values.  Invoking through a null entry dereferences a null pointer
  (undefined behavior), modelled as `none`.
* Bookkeeping operations return, next to the state, the list of call events
  they emit; their bodies apply no stored or probe callable (attach only
  constructs and appends; detach/detach_all only run `compare`, i.e.
  `dynamic_cast` plus equality tests), so that list is empty.
-/

namespace del

/-- The abstract record `base_callable` with its two concrete variants,
`generic_callable_handle<T>` (type tag `ty`, stored callable `m_Func`) and
`object_callable_handle<T>` (type tag `ty`, object address `m_Obj`,
member-function pointer `m_MemFunc`). -/
inductive base_callable (F : Type) where
  | generic_callable_handle (ty : Nat) (m_Func : F)
  | object_callable_handle (ty : Nat) (m_Obj : Nat) (m_MemFunc : Nat)
deriving DecidableEq

/-- The method `compare` of the record variants: first argument plays the
role of `this` (the probe `temp` in the detach paths), second the `bc`
parameter.  `dynamic_cast` success = same constructor and same type tag;
then `generic_callable_handle` tests `cc->m_Func == m_Func` with the stored
type's own equality `eqF` (note the operand order of the source), and
`object_callable_handle` tests object address and member-pointer equality. -/
def compare {F : Type} (eqF : F → F → Bool) :
    base_callable F → base_callable F → Bool
  | .generic_callable_handle ty f, .generic_callable_handle ty2 f2 =>
      ty == ty2 && eqF f2 f
  | .object_callable_handle ty o m, .object_callable_handle ty2 o2 m2 =>
      ty == ty2 && (o2 == o) && (m2 == m)
  | _, _ => false

/-- Is the record the plain-callable variant (`generic_callable_handle`)? -/
def is_plain {F : Type} : base_callable F → Bool
  | .generic_callable_handle _ _ => true
  | .object_callable_handle _ _ _ => false

/-- Spec-side notion: the other record is the same concrete variant (same
constructor, same handle template argument). -/
def same_variant {F : Type} : base_callable F → base_callable F → Bool
  | .generic_callable_handle ty _, .generic_callable_handle ty2 _ => ty == ty2
  | .object_callable_handle ty _ _, .object_callable_handle ty2 _ _ => ty == ty2
  | _, _ => false

/-- Spec-side notion: the variant-specific identity condition (stored-value
equality for plain records, object-address and member-pointer equality for
bound-method records). -/
def identity_cond {F : Type} (eqF : F → F → Bool) :
    base_callable F → base_callable F → Bool
  | .generic_callable_handle _ f, .generic_callable_handle _ f2 => eqF f2 f
  | .object_callable_handle _ o m, .object_callable_handle _ o2 m2 =>
      (o2 == o) && (m2 == m)
  | _, _ => false

/-- The dispatcher state: the member
`std::vector<std::unique_ptr<base_callable>> m_Callables`, a `unique_ptr`
being a nullable owning pointer (`none` = null). -/
structure event (F : Type) where
  m_Callables : List (Option (base_callable F))
deriving DecidableEq

/-- The predicate `compPred` built in `detach_impl`/`detach_all_impl`:
`temp.compare(callable.get())`.  On a null entry, `get()` is null and
`dynamic_cast` of a null pointer yields null, so `compare` returns false. -/
def compPred {F : Type} (eqF : F → F → Bool) (temp : base_callable F)
    (callable : Option (base_callable F)) : Bool :=
  match callable with
  | none => false
  | some bc => compare eqF temp bc

/-- `std::find_if` over the registry: index of the first entry satisfying
the predicate, or `none` when the search reaches `end()`. -/
def find_if {α : Type} (p : α → Bool) : List α → Option Nat
  | [] => none
  | x :: xs => if p x then some 0 else (find_if p xs).map (· + 1)

/-- `detach_impl`: erase the element `std::find_if` points at.  When no
entry matches, `find_if` returns `end()` and `vector::erase(end())` is
undefined behavior: no defined result state (`none`). -/
def detach_impl {F : Type} (eqF : F → F → Bool) (temp : base_callable F)
    (e : event F) : Option (event F) :=
  match find_if (compPred eqF temp) e.m_Callables with
  | some i => some ⟨e.m_Callables.eraseIdx i⟩
  | none => none

/-- `detach_all_impl`: the erase–remove idiom
`erase(remove_if(b, e, pred), e)`, i.e. drop every matching entry while
keeping the relative order of the rest (a defined no-op when nothing
matches). -/
def detach_all_impl {F : Type} (eqF : F → F → Bool) (temp : base_callable F)
    (e : event F) : event F :=
  ⟨e.m_Callables.filter (fun c => !compPred eqF temp c)⟩

/-- A call event: a record applied to an argument value.  `operator()`
discards each record's return value, so events carry none. -/
abbrev CallEvent (F A : Type) := base_callable F × A

/-- `attach(T&& callback)`: `emplace_back(new generic_callable_handle<T>(...))`;
appends one non-null record, emits no call event. -/
def attach {F A : Type} (e : event F) (ty : Nat) (callback : F) :
    event F × List (CallEvent F A) :=
  (⟨e.m_Callables ++ [some (.generic_callable_handle ty callback)]⟩, [])

/-- `attach(T& obj, R (T::*memFn)(Args...))`:
`emplace_back(new object_callable_handle<T>(&obj, memFn))`. -/
def attach_mem {F A : Type} (e : event F) (ty obj memFn : Nat) :
    event F × List (CallEvent F A) :=
  (⟨e.m_Callables ++ [some (.object_callable_handle ty obj memFn)]⟩, [])

/-- `detach(T&& callback)`: build a transient `generic_callable_handle<T>`
probe and run `detach_impl`.  Emits no call event (the probe is only
compared, never applied). -/
def detach {F A : Type} (eqF : F → F → Bool) (e : event F) (ty : Nat)
    (callback : F) : Option (event F) × List (CallEvent F A) :=
  (detach_impl eqF (.generic_callable_handle ty callback) e, [])

/-- `detach(T& obj, memFn)`: bound-method probe, then `detach_impl`. -/
def detach_mem {F A : Type} (eqF : F → F → Bool) (e : event F)
    (ty obj memFn : Nat) : Option (event F) × List (CallEvent F A) :=
  (detach_impl eqF (.object_callable_handle ty obj memFn) e, [])

/-- `detach_all(T&& callback)`: plain-callable probe, then
`detach_all_impl`. -/
def detach_all {F A : Type} (eqF : F → F → Bool) (e : event F) (ty : Nat)
    (callback : F) : event F × List (CallEvent F A) :=
  (detach_all_impl eqF (.generic_callable_handle ty callback) e, [])

/-- `detach_all(T& obj, memFn)`: bound-method probe, then
`detach_all_impl`. -/
def detach_all_mem {F A : Type} (eqF : F → F → Bool) (e : event F)
    (ty obj memFn : Nat) : event F × List (CallEvent F A) :=
  (detach_all_impl eqF (.object_callable_handle ty obj memFn) e, [])

/-- `clear()`: `m_Callables.clear()`. -/
def clear {F A : Type} (_e : event F) : event F × List (CallEvent F A) :=
  (⟨[]⟩, [])

/-- The loop body of `operator()`: walk the registry front to back,
invoking each record with the caller's argument and discarding its return
value; the trace lists the calls in the order they are made.  Invoking
through a null entry is undefined behavior (`none`). -/
def invoke_loop {F A : Type} :
    List (Option (base_callable F)) → A → Option (List (CallEvent F A))
  | [], _ => some []
  | none :: _, _ => none
  | some c :: rest, a =>
      (invoke_loop rest a).map (fun tr => ((c, a) : CallEvent F A) :: tr)

/-- `operator()(Args&&... args)`: runs the invocation loop; the registry
itself is not modified. -/
def operator_call {F A : Type} (e : event F) (a : A) :
    event F × Option (List (CallEvent F A)) :=
  (e, invoke_loop e.m_Callables a)

/-- A sequence of plain-callable `attach` calls, in order. -/
def attach_list {F A : Type} (e : event F) : List (Nat × F) → event F
  | [] => e
  | p :: ps => attach_list (F := F) (A := A) (attach (A := A) e p.1 p.2).1 ps

/-- Invariant of the registry: every stored `unique_ptr` is non-null, i.e.
every record has its invocation target present. -/
def AllSome {F : Type} (e : event F) : Prop :=
  ∀ c ∈ e.m_Callables, c.isSome = true

/-! Helper lemmas about the embedded operations. -/

theorem find_if_eq_none {α : Type} (p : α → Bool) (l : List α)
    (h : ∀ x ∈ l, p x = false) : find_if p l = none := by
  induction l with
  | nil => rfl
  | cons x xs ih =>
      have hx : p x = false := h x (List.mem_cons_self x xs)
      have hxs : find_if p xs = none :=
        ih (fun y hy => h y (List.mem_cons_of_mem x hy))
      simp [find_if, hx, hxs]

theorem find_if_erase {α : Type} (p : α → Bool) :
    ∀ l : List α, l.any p = true →
      ∃ i, find_if p l = some i ∧
        l.eraseIdx i =
          l.takeWhile (fun c => !p c) ++ (l.dropWhile (fun c => !p c)).drop 1 := by
  intro l
  induction l with
  | nil => intro h; simp at h
  | cons x xs ih =>
      intro h
      by_cases hx : p x = true
      · refine ⟨0, by simp [find_if, hx], ?_⟩
        simp [List.takeWhile_cons, List.dropWhile_cons, hx]
      · have hx' : p x = false := by simpa using hx
        have hxs : xs.any p = true := by simpa [hx'] using h
        obtain ⟨i, hfind, herase⟩ := ih hxs
        refine ⟨i + 1, by simp [find_if, hx', hfind], ?_⟩
        simp [List.takeWhile_cons, List.dropWhile_cons, hx', herase]

theorem attach_list_m_Callables {F A : Type} (fs : List (Nat × F)) :
    ∀ e : event F,
      (attach_list (A := A) e fs).m_Callables =
        e.m_Callables ++
          fs.map (fun p => some (base_callable.generic_callable_handle p.1 p.2)) := by
  induction fs with
  | nil => intro e; simp [attach_list]
  | cons p ps ih =>
      intro e
      simp [attach_list, ih, attach]

theorem invoke_loop_append {F A : Type} (l1 l2 : List (Option (base_callable F)))
    (a : A) :
    invoke_loop (l1 ++ l2) a =
      (invoke_loop l1 a).bind
        (fun t1 => (invoke_loop l2 a).map (fun t2 => t1 ++ t2)) := by
  induction l1 with
  | nil =>
      cases h2 : invoke_loop l2 a <;> simp [invoke_loop, h2]
  | cons x xs ih =>
      cases x with
      | none => simp [invoke_loop]
      | some c =>
          cases h1 : invoke_loop xs a <;>
            cases h2 : invoke_loop l2 a <;>
              simp [invoke_loop, ih, h1, h2]

theorem invoke_loop_map_some {F A : Type} (fs : List (Nat × F)) (a : A) :
    invoke_loop
        (fs.map (fun p => some (base_callable.generic_callable_handle p.1 p.2))) a =
      some (fs.map
        (fun p => ((base_callable.generic_callable_handle p.1 p.2 : base_callable F), a))) := by
  induction fs with
  | nil => rfl
  | cons p ps ih => simp [invoke_loop, ih]

theorem detach_impl_sublist {F : Type} (eqF : F → F → Bool)
    (temp : base_callable F) (e e2 : event F)
    (h : detach_impl eqF temp e = some e2) :
    List.Sublist e2.m_Callables e.m_Callables := by
  unfold detach_impl at h
  cases hf : find_if (compPred eqF temp) e.m_Callables with
  | none => simp [hf] at h
  | some i =>
      simp [hf] at h
      cases h
      exact List.eraseIdx_sublist e.m_Callables i

/-! Theorems for the claims. -/

/-- C1: for every dispatcher and every sequence of plain-callable `attach`
calls, one invoke-all call produces exactly the previous trace followed by
one call event per attached record, in attachment order, each carrying the
caller's argument; return values are discarded (the trace carries none). -/
theorem C1_invoke_each_once_in_order {F A : Type} (e : event F)
    (fs : List (Nat × F)) (a : A) :
    invoke_loop (attach_list (A := A) e fs).m_Callables a =
      (invoke_loop e.m_Callables a).map
        (fun tr => tr ++ fs.map
          (fun p => ((base_callable.generic_callable_handle p.1 p.2 : base_callable F), a))) := by
  rw [attach_list_m_Callables, invoke_loop_append, invoke_loop_map_some]
  cases h : invoke_loop e.m_Callables a <;> simp [h]

/-- Witness for C1: attaching values 5 and 7 to the empty dispatcher and
invoking with argument 3 calls each attached record once, in order. -/
theorem C1_witness :
    invoke_loop
        (attach_list (A := Nat) (⟨[]⟩ : event Nat) [(0, 5), (0, 7)]).m_Callables
        (3 : Nat) =
      some [(base_callable.generic_callable_handle 0 5, 3),
            (base_callable.generic_callable_handle 0 7, 3)] := by
  have h := C1_invoke_each_once_in_order (⟨[]⟩ : event Nat) [(0, 5), (0, 7)]
    (3 : Nat)
  exact h.trans (by simp [invoke_loop])

/-- C2: when at least one registry entry matches the detach probe,
`detach_impl` yields a defined state: the non-matching prefix before the
earliest match, followed by everything after that match — exactly one
record (the earliest-attached matching one) removed, all others kept in
their relative order. -/
theorem C2_detach_removes_earliest_match {F : Type} (eqF : F → F → Bool)
    (temp : base_callable F) (e : event F)
    (h : e.m_Callables.any (compPred eqF temp) = true) :
    detach_impl eqF temp e =
      some ⟨e.m_Callables.takeWhile (fun c => !compPred eqF temp c) ++
        (e.m_Callables.dropWhile (fun c => !compPred eqF temp c)).drop 1⟩ := by
  obtain ⟨i, hfind, herase⟩ := find_if_erase (compPred eqF temp) e.m_Callables h
  simp [detach_impl, hfind, herase]

/-- Witness for C2 at a concrete registry with a duplicate: detaching the
value 5 removes only the first of its two records and keeps the record of 7
and the later duplicate of 5 in order. -/
theorem C2_witness :
    ([some (base_callable.generic_callable_handle 0 (5 : Nat)),
      some (base_callable.generic_callable_handle 0 7),
      some (base_callable.generic_callable_handle 0 5)].any
        (compPred (fun a b : Nat => a == b)
          (base_callable.generic_callable_handle 0 5)) = true) ∧
    detach_impl (fun a b : Nat => a == b)
        (base_callable.generic_callable_handle 0 5)
        ⟨[some (base_callable.generic_callable_handle 0 5),
          some (base_callable.generic_callable_handle 0 7),
          some (base_callable.generic_callable_handle 0 5)]⟩ =
      some ⟨[some (base_callable.generic_callable_handle 0 7),
             some (base_callable.generic_callable_handle 0 5)]⟩ := by
  refine ⟨by decide, ?_⟩
  have h := C2_detach_removes_earliest_match (fun a b : Nat => a == b)
    (base_callable.generic_callable_handle 0 5)
    ⟨[some (base_callable.generic_callable_handle 0 5),
      some (base_callable.generic_callable_handle 0 7),
      some (base_callable.generic_callable_handle 0 5)]⟩ (by decide)
  simpa using h

/-- C3: when no registry entry matches the probe, `detach_all_impl` is a
defined no-op leaving the registry unchanged, but `detach_impl` has no
defined result: `std::find_if` returns `end()` and the code passes it
straight to `vector::erase`, which is undefined behavior — the code does
not provide the defined silent no-op the claim states for `detach`. -/
theorem C3_no_match_detach_undefined {F : Type} (eqF : F → F → Bool)
    (temp : base_callable F) (e : event F)
    (h : ∀ c ∈ e.m_Callables, compPred eqF temp c = false) :
    detach_impl eqF temp e = none ∧ detach_all_impl eqF temp e = e := by
  constructor
  · simp [detach_impl, find_if_eq_none _ _ h]
  · cases e with
    | mk l =>
        simp only [detach_all_impl, event.mk.injEq]
        exact List.filter_eq_self.mpr (fun c hc => by simp [h c hc])

/-- Witness for C3 at the empty registry: `detach` hits undefined behavior
(no result state), `detach_all` is a no-op. -/
theorem C3_witness :
    (∀ c ∈ (⟨[]⟩ : event Nat).m_Callables,
        compPred (fun a b : Nat => a == b)
          (base_callable.generic_callable_handle 0 5) c = false) ∧
    detach_impl (fun a b : Nat => a == b)
        (base_callable.generic_callable_handle 0 5) (⟨[]⟩ : event Nat) = none ∧
    detach_all_impl (fun a b : Nat => a == b)
        (base_callable.generic_callable_handle 0 5) (⟨[]⟩ : event Nat) =
      (⟨[]⟩ : event Nat) := by
  refine ⟨by simp, ?_⟩
  exact C3_no_match_detach_undefined (fun a b : Nat => a == b)
    (base_callable.generic_callable_handle 0 5) (⟨[]⟩ : event Nat)
    (by simp)

/-- C4: `detach_all_impl` returns a sublist of the registry (so the
relative order of the remaining records is preserved), and an entry's
multiplicity in the result is zero when it matches the probe and unchanged
when it does not — every matching record is removed and no other. -/
theorem C4_detach_all_removes_all_matches {F : Type} [DecidableEq F]
    (eqF : F → F → Bool) (temp : base_callable F) (e : event F) :
    List.Sublist (detach_all_impl eqF temp e).m_Callables e.m_Callables ∧
    ∀ c : Option (base_callable F),
      (detach_all_impl eqF temp e).m_Callables.count c =
        if compPred eqF temp c then 0 else e.m_Callables.count c := by
  constructor
  · exact List.filter_sublist e.m_Callables
  · intro c
    by_cases hc : compPred eqF temp c = true
    · rw [if_pos hc, List.count_eq_zero]
      intro hmem
      have hkeep := List.of_mem_filter hmem
      simp [hc] at hkeep
    · have hc' : (fun x => !compPred eqF temp x) c = true := by simp [hc]
      rw [if_neg hc]
      exact List.count_filter hc'

/-- Witness for C4 on a registry holding 5, 7, 5: detach_all of 5 leaves a
sublist with no record of 5 and the record of 7 still present once. -/
theorem C4_witness :
    (detach_all_impl (fun a b : Nat => a == b)
        (base_callable.generic_callable_handle 0 5)
        (⟨[some (base_callable.generic_callable_handle 0 5),
           some (base_callable.generic_callable_handle 0 7),
           some (base_callable.generic_callable_handle 0 5)]⟩ : event Nat)).m_Callables.count
        (some (base_callable.generic_callable_handle 0 5)) = 0 ∧
    (detach_all_impl (fun a b : Nat => a == b)
        (base_callable.generic_callable_handle 0 5)
        (⟨[some (base_callable.generic_callable_handle 0 5),
           some (base_callable.generic_callable_handle 0 7),
           some (base_callable.generic_callable_handle 0 5)]⟩ : event Nat)).m_Callables.count
        (some (base_callable.generic_callable_handle 0 7)) = 1 := by
  have h := C4_detach_all_removes_all_matches (fun a b : Nat => a == b)
    (base_callable.generic_callable_handle 0 5)
    (⟨[some (base_callable.generic_callable_handle 0 5),
       some (base_callable.generic_callable_handle 0 7),
       some (base_callable.generic_callable_handle 0 5)]⟩ : event Nat)
  constructor
  · rw [h.2 (some (base_callable.generic_callable_handle 0 5))]
    decide
  · rw [h.2 (some (base_callable.generic_callable_handle 0 7))]
    decide

/-- C5: records of different concrete variants never compare equal (the
`dynamic_cast` fails before any equality test), and `compare` returns true
exactly when the other record is the same concrete variant and the
variant-specific identity condition holds. -/
theorem C5_compare_variant_safe {F : Type} (eqF : F → F → Bool)
    (r r2 : base_callable F) :
    (is_plain r ≠ is_plain r2 → compare eqF r r2 = false) ∧
    (compare eqF r r2 = true ↔
      (same_variant r r2 = true ∧ identity_cond eqF r r2 = true)) := by
  cases r <;> cases r2 <;>
    simp [is_plain, compare, same_variant, identity_cond, Bool.and_assoc,
      and_assoc]

/-- Witness for C5: a plain-callable record against a bound-method record
compares false, and a matching pair of plain records compares true through
the same-variant-plus-identity characterisation. -/
theorem C5_witness :
    compare (fun a b : Nat => a == b)
        (base_callable.generic_callable_handle 0 3)
        (base_callable.object_callable_handle 1 2 4) = false ∧
    compare (fun a b : Nat => a == b)
        (base_callable.generic_callable_handle 0 3)
        (base_callable.generic_callable_handle 0 3) = true := by
  constructor
  · exact (C5_compare_variant_safe (fun a b : Nat => a == b)
      (base_callable.generic_callable_handle 0 3)
      (base_callable.object_callable_handle 1 2 4)).1 (by decide)
  · exact (C5_compare_variant_safe (fun a b : Nat => a == b)
      (base_callable.generic_callable_handle 0 3)
      (base_callable.generic_callable_handle 0 3)).2.mpr (by decide)

/-- C6: two bound-method records of the same class compare equal iff their
object addresses and member-function pointers both agree; therefore, with
two bindings of the same member function to objects at distinct addresses,
the probe for one does not match the other, detaching the first removes
only it, and the remaining binding is still invoked. -/
theorem C6_bound_method_identity {F A : Type} (eqF : F → F → Bool)
    (ty oA oB mf : Nat) (a : A) (h : oA ≠ oB) :
    (∀ o o2 m m2 : Nat,
      compare eqF (base_callable.object_callable_handle (F := F) ty o m)
          (base_callable.object_callable_handle ty o2 m2) = true ↔
        (o = o2 ∧ m = m2)) ∧
    compare eqF (base_callable.object_callable_handle (F := F) ty oA mf)
        (base_callable.object_callable_handle ty oB mf) = false ∧
    detach_impl eqF (base_callable.object_callable_handle ty oA mf)
        (⟨[some (base_callable.object_callable_handle ty oA mf),
           some (base_callable.object_callable_handle ty oB mf)]⟩ : event F) =
      some ⟨[some (base_callable.object_callable_handle ty oB mf)]⟩ ∧
    invoke_loop (A := A)
        [some (base_callable.object_callable_handle (F := F) ty oB mf)] a =
      some [(base_callable.object_callable_handle ty oB mf, a)] := by
  refine ⟨?_, ?_, ?_, ?_⟩
  · intro o o2 m m2
    simp only [compare, Bool.and_eq_true, beq_iff_eq, beq_self_eq_true,
      true_and]
    constructor
    · rintro ⟨h1, h2⟩
      exact ⟨h1.symm, h2.symm⟩
    · rintro ⟨h1, h2⟩
      exact ⟨h1.symm, h2.symm⟩
  · simp [compare]
    intro hB
    exact absurd hB.symm h
  · simp [detach_impl, find_if, compPred, compare]
  · simp [invoke_loop]

/-- Witness for C6 with objects at addresses 1 and 2: the cross probe
compares false and detaching the binding at address 1 leaves the binding at
address 2 registered. -/
theorem C6_witness :
    compare (fun a b : Nat => a == b)
        (base_callable.object_callable_handle 0 1 3)
        (base_callable.object_callable_handle 0 2 3) = false ∧
    compare (fun a b : Nat => a == b)
        (base_callable.object_callable_handle 0 1 3)
        (base_callable.object_callable_handle 0 1 3) = true ∧
    detach_impl (fun a b : Nat => a == b)
        (base_callable.object_callable_handle 0 1 3)
        (⟨[some (base_callable.object_callable_handle 0 1 3),
           some (base_callable.object_callable_handle 0 2 3)]⟩ : event Nat) =
      some ⟨[some (base_callable.object_callable_handle 0 2 3)]⟩ := by
  have h6 := C6_bound_method_identity (A := Nat) (fun a b : Nat => a == b)
    0 1 2 3 (7 : Nat) (by decide)
  exact ⟨h6.2.1, (h6.1 1 1 3 3).mpr ⟨rfl, rfl⟩, h6.2.2.1⟩

/-- C7: attach performs no duplicate detection.  Attaching the same plain
value twice to an empty dispatcher and invoking yields exactly two call
events of that record; `detach_all` on the value then removes both records,
after which invoking performs no invocation at all.  The hypothesis is that
the stored type's `operator==` holds reflexively at the value. -/
theorem C7_no_duplicate_detection {F A : Type} (eqF : F → F → Bool)
    (ty : Nat) (f : F) (a : A) (h : eqF f f = true) :
    invoke_loop
        (attach (A := A) (attach (A := A) (⟨[]⟩ : event F) ty f).1 ty f).1.m_Callables a =
      some [(base_callable.generic_callable_handle ty f, a),
            (base_callable.generic_callable_handle ty f, a)] ∧
    detach_all_impl eqF (base_callable.generic_callable_handle ty f)
        (attach (A := A) (attach (A := A) (⟨[]⟩ : event F) ty f).1 ty f).1 =
      (⟨[]⟩ : event F) ∧
    invoke_loop (A := A)
        (detach_all_impl eqF (base_callable.generic_callable_handle ty f)
          (attach (A := A) (attach (A := A) (⟨[]⟩ : event F) ty f).1 ty f).1).m_Callables
        a = some [] := by
  refine ⟨?_, ?_, ?_⟩
  · simp [attach, invoke_loop]
  · simp [attach, detach_all_impl, compPred, compare, h]
  · simp [attach, detach_all_impl, compPred, compare, h, invoke_loop]

/-- Witness for C7 at value 5 with argument 9. -/
theorem C7_witness :
    invoke_loop
        (attach (A := Nat)
          (attach (A := Nat) (⟨[]⟩ : event Nat) 0 5).1 0 5).1.m_Callables (9 : Nat) =
      some [(base_callable.generic_callable_handle 0 5, 9),
            (base_callable.generic_callable_handle 0 5, 9)] ∧
    detach_all_impl (fun a b : Nat => a == b)
        (base_callable.generic_callable_handle 0 5)
        (attach (A := Nat)
          (attach (A := Nat) (⟨[]⟩ : event Nat) 0 5).1 0 5).1 = (⟨[]⟩ : event Nat) := by
  have h7 := C7_no_duplicate_detection (fun a b : Nat => a == b) 0 5 (9 : Nat)
    (by decide)
  exact ⟨h7.1, h7.2.1⟩

/-- C8: whenever the invocation loop has a defined trace, it contains one
call per registry entry, the i-th call invokes the i-th registered record,
and the argument passed to it is exactly the caller's argument, independent
of the calls made before it. -/
theorem C8_same_argument_to_each {F A : Type}
    (l : List (Option (base_callable F))) (a : A)
    (tr : List (CallEvent F A)) (h : invoke_loop l a = some tr) :
    tr.length = l.length ∧
    ∀ (i : Nat) (hi : i < tr.length) (hl : i < l.length),
      (tr.get ⟨i, hi⟩).2 = a ∧ l.get ⟨i, hl⟩ = some (tr.get ⟨i, hi⟩).1 := by
  induction l generalizing tr with
  | nil =>
      simp [invoke_loop] at h
      subst h
      exact ⟨rfl, fun i hi => by simp at hi⟩
  | cons x xs ih =>
      cases x with
      | none => simp [invoke_loop] at h
      | some c =>
          simp only [invoke_loop, Option.map_eq_some'] at h
          obtain ⟨tr2, h2, rfl⟩ := h
          obtain ⟨hlen, hget⟩ := ih tr2 h2
          refine ⟨by simp [hlen], ?_⟩
          intro i hi hl
          cases i with
          | zero => exact ⟨rfl, rfl⟩
          | succ j =>
              exact hget j (by simpa using hi) (by simpa using hl)

/-- Witness for C8 on a two-record registry with argument 7: the trace has
one entry per record and the second call carries argument 7 to the second
record. -/
theorem C8_witness :
    ([(base_callable.generic_callable_handle 0 (5 : Nat), (7 : Nat)),
      (base_callable.generic_callable_handle 0 6, 7)].length =
      [some (base_callable.generic_callable_handle 0 (5 : Nat)),
       some (base_callable.generic_callable_handle 0 6)].length) ∧
    (List.get [(base_callable.generic_callable_handle 0 (5 : Nat), (7 : Nat)),
        (base_callable.generic_callable_handle 0 6, 7)]
      ⟨1, by decide⟩).2 = 7 := by
  have h8 := C8_same_argument_to_each
    [some (base_callable.generic_callable_handle 0 (5 : Nat)),
     some (base_callable.generic_callable_handle 0 6)] (7 : Nat)
    [(base_callable.generic_callable_handle 0 5, 7),
     (base_callable.generic_callable_handle 0 6, 7)] rfl
  exact ⟨h8.1, (h8.2 1 (by decide) (by decide)).1⟩

/-- C9: the public operations preserve the registry invariants.  Both
attach overloads change the registry only by appending one non-null record
at the end; detach (when its result is defined), detach_all and clear
produce sublists of the registry (removals keeping the relative order of
the remaining records); invoke-all leaves the registry unchanged; and every
operation preserves the all-entries-non-null invariant. -/
theorem C9_operations_preserve_invariants {F A : Type} (eqF : F → F → Bool)
    (e : event F) (ty o m : Nat) (f : F) (a : A) :
    (attach (A := A) e ty f).1.m_Callables =
      e.m_Callables ++ [some (base_callable.generic_callable_handle ty f)] ∧
    (attach_mem (A := A) e ty o m).1.m_Callables =
      e.m_Callables ++ [some (base_callable.object_callable_handle ty o m)] ∧
    (∀ e2, (detach (A := A) eqF e ty f).1 = some e2 →
      List.Sublist e2.m_Callables e.m_Callables) ∧
    (∀ e2, (detach_mem (A := A) eqF e ty o m).1 = some e2 →
      List.Sublist e2.m_Callables e.m_Callables) ∧
    List.Sublist (detach_all (A := A) eqF e ty f).1.m_Callables e.m_Callables ∧
    List.Sublist (detach_all_mem (A := A) eqF e ty o m).1.m_Callables
      e.m_Callables ∧
    (clear (A := A) e).1.m_Callables = [] ∧
    (operator_call e a).1 = e ∧
    (AllSome e →
      AllSome (attach (A := A) e ty f).1 ∧
      AllSome (attach_mem (A := A) e ty o m).1 ∧
      (∀ e2, (detach (A := A) eqF e ty f).1 = some e2 → AllSome e2) ∧
      (∀ e2, (detach_mem (A := A) eqF e ty o m).1 = some e2 → AllSome e2) ∧
      AllSome (detach_all (A := A) eqF e ty f).1 ∧
      AllSome (detach_all_mem (A := A) eqF e ty o m).1 ∧
      AllSome (clear (A := A) e).1 ∧
      AllSome (operator_call e a).1) := by
  refine ⟨rfl, rfl, ?_, ?_, ?_, ?_, rfl, rfl, ?_⟩
  · exact fun e2 h2 => detach_impl_sublist eqF _ e e2 h2
  · exact fun e2 h2 => detach_impl_sublist eqF _ e e2 h2
  · exact List.filter_sublist e.m_Callables
  · exact List.filter_sublist e.m_Callables
  · intro hAll
    refine ⟨?_, ?_, ?_, ?_, ?_, ?_, ?_, hAll⟩
    · intro c hc
      rcases List.mem_append.mp hc with hc1 | hc2
      · exact hAll c hc1
      · simp at hc2
        simp [hc2]
    · intro c hc
      rcases List.mem_append.mp hc with hc1 | hc2
      · exact hAll c hc1
      · simp at hc2
        simp [hc2]
    · intro e2 h2 c hc
      exact hAll c ((detach_impl_sublist eqF _ e e2 h2).subset hc)
    · intro e2 h2 c hc
      exact hAll c ((detach_impl_sublist eqF _ e e2 h2).subset hc)
    · intro c hc
      exact hAll c ((List.filter_sublist e.m_Callables).subset hc)
    · intro c hc
      exact hAll c ((List.filter_sublist e.m_Callables).subset hc)
    · intro c hc
      simp [clear] at hc

/-- Witness for C9: on a one-record registry, detaching that record yields
the empty registry (a sublist), and the all-non-null invariant carries over
to it. -/
theorem C9_witness :
    List.Sublist ([] : List (Option (base_callable Nat)))
      [some (base_callable.generic_callable_handle 0 5)] ∧
    AllSome (⟨[]⟩ : event Nat) := by
  have h9 := C9_operations_preserve_invariants (A := Nat)
    (fun a b : Nat => a == b)
    (⟨[some (base_callable.generic_callable_handle 0 5)]⟩ : event Nat)
    0 1 2 5 (3 : Nat)
  have hAll : AllSome
      (⟨[some (base_callable.generic_callable_handle 0 (5 : Nat))]⟩ : event Nat) := by
    intro c hc
    simp at hc
    simp [hc]
  have hdet : (detach (A := Nat) (fun a b : Nat => a == b)
      (⟨[some (base_callable.generic_callable_handle 0 5)]⟩ : event Nat)
      0 5).1 = some (⟨[]⟩ : event Nat) := by
    simp [detach, detach_impl, find_if, compPred, compare]
  exact ⟨h9.2.2.1 (⟨[]⟩ : event Nat) hdet,
    (h9.2.2.2.2.2.2.2.2 hAll).2.2.1 (⟨[]⟩ : event Nat) hdet⟩

/-- C10: the bookkeeping operations emit no call events — attach (both
overloads), detach, detach_all and clear apply no stored callable and no
probe callable; the invocation loop of `operator()` is the only operation
producing call events, one per registered record. -/
theorem C10_bookkeeping_invokes_nothing {F A : Type} (eqF : F → F → Bool)
    (e : event F) (ty o m : Nat) (f : F) (a : A) :
    (attach (A := A) e ty f).2 = [] ∧
    (attach_mem (A := A) e ty o m).2 = [] ∧
    (detach (A := A) eqF e ty f).2 = [] ∧
    (detach_mem (A := A) eqF e ty o m).2 = [] ∧
    (detach_all (A := A) eqF e ty f).2 = [] ∧
    (detach_all_mem (A := A) eqF e ty o m).2 = [] ∧
    (clear (A := A) e).2 = [] ∧
    (operator_call
        (⟨[some (base_callable.generic_callable_handle ty f)]⟩ : event F) a).2 =
      some [(base_callable.generic_callable_handle ty f, a)] := by
  exact ⟨rfl, rfl, rfl, rfl, rfl, rfl, rfl, rfl⟩

/-- Witness for C10 at concrete inputs: attach and detach emit no call
events while invoking a one-record dispatcher emits exactly one. -/
theorem C10_witness :
    (attach (A := Nat) (⟨[]⟩ : event Nat) 0 (5 : Nat)).2 = [] ∧
    (detach (A := Nat) (fun a b : Nat => a == b) (⟨[]⟩ : event Nat) 0
      (5 : Nat)).2 = [] ∧
    (operator_call
        (⟨[some (base_callable.generic_callable_handle 0 (5 : Nat))]⟩ : event Nat)
        (3 : Nat)).2 =
      some [(base_callable.generic_callable_handle 0 5, 3)] := by
  have h := C10_bookkeeping_invokes_nothing (A := Nat)
    (fun a b : Nat => a == b) (⟨[]⟩ : event Nat) 0 1 2 (5 : Nat) (3 : Nat)
  exact ⟨h.1, h.2.2.1, h.2.2.2.2.2.2.2⟩

end del
